import Mathlib

/-!
Verification development for a reminder bot (`src/bot.py`).

The file shallowly embeds the two cores of the program:

* the natural-language time parser `parse_time_from_text` (with its helper
  matchers, spelled-number parser `parse_number`, spoken-time matcher
  `parse_spoken_time` and the body-stripping substitutions), modelled over
  `List Char` / `String` with the specific regular expressions of the source
  implemented as explicit scanners with the same backtracking behaviour;
* the persistence layer (`add_reminder`, `delete_reminder`,
  `update_reminder_state`, `load_pending_reminders` — the store is modelled as
  an association list standing for the SQL table), the delivery loop
  `reminder_task` (one loop iteration is `reminder_task_iter`, a fuel-bounded
  run is `reminder_task_run`; `asyncio.sleep(delay)` is modelled as advancing
  the clock to `run_at`), the task registry (`schedule_reminder`, where
  cancelling a task and removing it from the registry form one atomic action
  of the cooperative scheduler) and the callback handler `on_callback`.

Times are integer epoch seconds.  The reference timezone `Europe/Moscow` is
modelled with its fixed `UTC+3` offset (no DST in the modern era), so local
wall-clock seconds are `utc + 10800` and `replace(hour, minute, 0, 0)` is
arithmetic on seconds within the local day.
-/

/-! ### Character classes (Python `re` semantics for the patterns used) -/

/-- ASCII digit, the `\d` of the source's patterns on its inputs. -/
def isAsciiDigit (c : Char) : Bool := '0' ≤ c && c ≤ '9'

/-- Lowercase Cyrillic from the `[а-я]` range (this excludes `ё`, exactly as
the Python character class does). -/
def isRuLower (c : Char) : Bool := 'а' ≤ c && c ≤ 'я'

/-- Lowercase latin `[a-z]`. -/
def isLatinLower (c : Char) : Bool := 'a' ≤ c && c ≤ 'z'

/-- Uppercase latin `[A-Z]`. -/
def isLatinUpper (c : Char) : Bool := 'A' ≤ c && c ≤ 'Z'

/-- Uppercase Cyrillic `[А-Я]`. -/
def isRuUpper (c : Char) : Bool := 'А' ≤ c && c ≤ 'Я'

/-- Word character (`\w`) for the alphabets the bot handles: latin and
Cyrillic letters (including `ё`), digits and underscore. -/
def isWordChar (c : Char) : Bool :=
  isAsciiDigit c || isLatinLower c || isLatinUpper c || isRuLower c || isRuUpper c ||
    c = 'ё' || c = 'Ё' || c = '_'

/-- Whitespace (`\s`). -/
def isSpaceChar (c : Char) : Bool :=
  c = ' ' || c = '\t' || c = '\n' || c = '\r' || c = '\x0b' || c = '\x0c'

/-- `str.lower()` restricted to the alphabets the bot handles. -/
def lowerChar (c : Char) : Char :=
  if isLatinUpper c then Char.ofNat (c.toNat + 32)
  else if isRuUpper c then Char.ofNat (c.toNat + 32)
  else if c = 'Ё' then 'ё'
  else c

/-- The source's `.replace("ё", "е")` applied per character. -/
def yoFixChar (c : Char) : Char := if c = 'ё' then 'е' else c

/-- `text.lower().replace("ё", "е")` — the `lower` variable of
`parse_time_from_text`. -/
def bot_lower (text : String) : List Char :=
  (text.toList.map lowerChar).map yoFixChar

/-! ### Tokenization (`re.findall`) -/

/-- Longest run of characters satisfying `p`, plus the remainder. -/
def takeRun (p : Char → Bool) : List Char → List Char × List Char
  | [] => ([], [])
  | c :: cs =>
    if p c then
      let r := takeRun p cs
      (c :: r.1, r.2)
    else ([], c :: cs)

theorem takeRun_snd_length (p : Char → Bool) :
    ∀ l : List Char, (takeRun p l).2.length ≤ l.length := by
  intro l
  induction l with
  | nil => simp [takeRun]
  | cons c cs ih =>
    by_cases h : p c = true
    · simpa [takeRun, h] using Nat.le_succ_of_le ih
    · simp [takeRun, h]

/-- Letter in the class `[a-zа-я]` of the tokenizing regexes. -/
def isTokLetter (c : Char) : Bool := isLatinLower c || isRuLower c

/-- Scanner for `re.findall(r"[a-zа-я]+|\d+", s)` (fuel-bounded so that the
recursion is structural; a fuel of the input length always suffices since
every step consumes at least one character). -/
def findall_tokens_go : Nat → List Char → List String
  | 0, _ => []
  | _ + 1, [] => []
  | fuel + 1, c :: cs =>
    if isTokLetter c then
      let r := takeRun isTokLetter cs
      String.mk (c :: r.1) :: findall_tokens_go fuel r.2
    else if isAsciiDigit c then
      let r := takeRun isAsciiDigit cs
      String.mk (c :: r.1) :: findall_tokens_go fuel r.2
    else
      findall_tokens_go fuel cs

/-- `re.findall(r"[a-zа-я]+|\d+", s)`: maximal letter runs and digit runs,
in order, everything else skipped. -/
def findall_tokens (l : List Char) : List String := findall_tokens_go l.length l

/-- Scanner for `re.findall(r"[a-zа-я]+", s)`. -/
def letter_tokens_go : Nat → List Char → List String
  | 0, _ => []
  | _ + 1, [] => []
  | fuel + 1, c :: cs =>
    if isTokLetter c then
      let r := takeRun isTokLetter cs
      String.mk (c :: r.1) :: letter_tokens_go fuel r.2
    else
      letter_tokens_go fuel cs

/-- `re.findall(r"[a-zа-я]+", s)`: maximal letter runs only (digits are not
tokens here), as used by `parse_spoken_time`. -/
def letter_tokens (l : List Char) : List String := letter_tokens_go l.length l

/-- Equality of parser results is decidable. -/
instance {e a : Type} [DecidableEq e] [DecidableEq a] : DecidableEq (Except e a)
  | .ok x, .ok y =>
    if h : x = y then .isTrue (by rw [h]) else .isFalse (fun hc => h (Except.ok.inj hc))
  | .error x, .error y =>
    if h : x = y then .isTrue (by rw [h]) else .isFalse (fun hc => h (Except.error.inj hc))
  | .ok _, .error _ => .isFalse (fun hc => Except.noConfusion hc)
  | .error _, .ok _ => .isFalse (fun hc => Except.noConfusion hc)

/-- The main token list of `parse_time_from_text`. -/
def bot_tokens (text : String) : List String := findall_tokens (bot_lower text)

/-! ### Spelled-out numbers (`parse_number`) -/

/-- The `units` dict of `parse_number`. -/
def units : List (String × Nat) :=
  [("ноль", 0), ("один", 1), ("одна", 1), ("два", 2), ("две", 2), ("три", 3),
   ("четыре", 4), ("пять", 5), ("шесть", 6), ("семь", 7), ("восемь", 8), ("девять", 9)]

/-- The `teens` dict of `parse_number`. -/
def teens : List (String × Nat) :=
  [("десять", 10), ("одиннадцать", 11), ("двенадцать", 12), ("тринадцать", 13),
   ("четырнадцать", 14), ("пятнадцать", 15), ("шестнадцать", 16), ("семнадцать", 17),
   ("восемнадцать", 18), ("девятнадцать", 19)]

/-- The `tens` dict of `parse_number`. -/
def tens : List (String × Nat) :=
  [("двадцать", 20), ("тридцать", 30), ("сорок", 40), ("пятьдесят", 50)]

/-- Dictionary lookup. -/
def dictVal (d : List (String × Nat)) (t : String) : Option Nat :=
  (d.find? (fun p => p.1 == t)).map (fun p => p.2)

/-- `token.isdigit()` (for the token alphabet: a non-empty ASCII-digit run). -/
def token_is_digits (t : String) : Bool :=
  !t.toList.isEmpty && t.toList.all isAsciiDigit

/-- Numeric value of a digit character. -/
def digitVal (c : Char) : Nat := c.toNat - 48

/-- `int(token)` on a digit run. -/
def digitsToNat (l : List Char) : Nat := l.foldl (fun a c => a * 10 + digitVal c) 0

/-- `int(token)` on a token. -/
def strToNat (t : String) : Nat := digitsToNat t.toList

/-- `parse_number(tokens, idx)`: value (or `None`) and the index just past the
consumed tokens. -/
def parse_number (tokens : List String) (idx : Nat) : Option Nat × Nat :=
  match tokens.get? idx with
  | none => (none, idx)
  | some token =>
    if token_is_digits token then (some (strToNat token), idx + 1)
    else
      match dictVal teens token with
      | some v => (some v, idx + 1)
      | none =>
        match dictVal tens token with
        | some v =>
          match tokens.get? (idx + 1) with
          | some t2 =>
            match dictVal units t2 with
            | some u => (some (v + u), idx + 2)
            | none => (some v, idx + 1)
          | none => (some v, idx + 1)
        | none =>
          match dictVal units token with
          | some v => (some v, idx + 1)
          | none => (none, idx)

/-! ### The digit-pattern matchers, as explicit scanners

Each regular expression of the source is implemented as a scanner over
`List Char` with the same greedy/backtracking behaviour; `\b` is tracked by
carrying whether the previous character was a word character. -/

/-- `\b` after a match: the next character (if any) is not a word character. -/
def noWordAhead : List Char → Bool
  | [] => true
  | c :: _ => !isWordChar c

/-- The `[:.]` separator class. -/
def sepChar (c : Char) : Bool := c = ':' || c = '.'

/-- Case-insensitive literal match (pattern given lowercase); returns the
remainder on success. -/
def startsWithCI : List Char → List Char → Option (List Char)
  | [], l => some l
  | _ :: _, [] => none
  | wc :: ws, c :: cs => if lowerChar c = wc then startsWithCI ws cs else none

/-- `(\d{1,2})[:.](\d{2})\b` at a fixed position with the one-digit hour. -/
def tryHHMMAt1 : List Char → Option (Nat × Nat × List Char)
  | d1 :: s :: m1 :: m2 :: rest =>
    if isAsciiDigit d1 && sepChar s && isAsciiDigit m1 && isAsciiDigit m2 &&
        noWordAhead rest then
      some (digitVal d1, digitVal m1 * 10 + digitVal m2, rest)
    else none
  | _ => none

/-- `(\d{1,2})[:.](\d{2})\b` at a fixed position: greedy two-digit hour first,
then backtrack to one digit. -/
def tryHHMMAt (l : List Char) : Option (Nat × Nat × List Char) :=
  match l with
  | d1 :: d2 :: s :: m1 :: m2 :: rest =>
    if isAsciiDigit d1 && isAsciiDigit d2 && sepChar s && isAsciiDigit m1 &&
        isAsciiDigit m2 && noWordAhead rest then
      some (digitVal d1 * 10 + digitVal d2, digitVal m1 * 10 + digitVal m2, rest)
    else tryHHMMAt1 l
  | _ => tryHHMMAt1 l

/-- `re.search(r"\b(\d{1,2})[:.](\d{2})\b", s)`: leftmost match. -/
def findHHMMGo : List Char → Bool → Option (Nat × Nat)
  | [], _ => none
  | c :: cs, prevW =>
    if !prevW then
      match tryHHMMAt (c :: cs) with
      | some (h, m, _) => some (h, m)
      | none => findHHMMGo cs (isWordChar c)
    else findHHMMGo cs (isWordChar c)

/-- The first matcher's search on the lowered text. -/
def findHHMM (l : List Char) : Option (Nat × Nat) := findHHMMGo l false

/-- `re.sub(r"\b(\d{1,2})[:.](\d{2})\b", "", s)`: remove every match. -/
def subHHMMGo : Nat → List Char → Bool → List Char
  | 0, l, _ => l
  | _ + 1, [], _ => []
  | fuel + 1, c :: cs, prevW =>
    if !prevW then
      match tryHHMMAt (c :: cs) with
      | some (_, _, rest) => subHHMMGo fuel rest true
      | none => c :: subHHMMGo fuel cs (isWordChar c)
    else c :: subHHMMGo fuel cs (isWordChar c)

/-- Remove all `HH:MM`/`HH.MM` matches. -/
def subHHMM (l : List Char) : List Char := subHHMMGo l.length l false

/-- After `(?:в|во)` was consumed: `\s*(\d{1,2})\s+(\d{2})\b`. -/
def tryVDDAfter (l : List Char) : Option (Nat × Nat × List Char) :=
  let sp := takeRun isSpaceChar l
  let ds := takeRun isAsciiDigit sp.2
  if ds.1.isEmpty || 2 < ds.1.length then none
  else
    let sp2 := takeRun isSpaceChar ds.2
    if sp2.1.isEmpty then none
    else
      let ms := takeRun isAsciiDigit sp2.2
      if ms.1.length = 2 && noWordAhead ms.2 then
        some (digitsToNat ds.1, digitsToNat ms.1, ms.2)
      else none

/-- `\b(?:в|во)\s*(\d{1,2})\s+(\d{2})\b` at a fixed position (the alternation
tries `в` first, then `во`). -/
def tryVDDAt (l : List Char) : Option (Nat × Nat × List Char) :=
  match l with
  | c :: cs =>
    if lowerChar c = 'в' then
      match tryVDDAfter cs with
      | some r => some r
      | none =>
        match cs with
        | c2 :: cs2 => if lowerChar c2 = 'о' then tryVDDAfter cs2 else none
        | [] => none
    else none
  | [] => none

/-- Search for the second matcher. -/
def findVDDGo : List Char → Bool → Option (Nat × Nat)
  | [], _ => none
  | c :: cs, prevW =>
    if !prevW then
      match tryVDDAt (c :: cs) with
      | some (h, m, _) => some (h, m)
      | none => findVDDGo cs (isWordChar c)
    else findVDDGo cs (isWordChar c)

/-- `re.search(r"\b(?:в|во)\s*(\d{1,2})\s+(\d{2})\b", s)`. -/
def findVDD (l : List Char) : Option (Nat × Nat) := findVDDGo l false

/-- `re.sub(r"\b(?:в|во)\s*\d{1,2}\s+\d{2}\b", "", s, count=1)`. -/
def subVDDFirstGo : List Char → Bool → List Char
  | [], _ => []
  | c :: cs, prevW =>
    if !prevW then
      match tryVDDAt (c :: cs) with
      | some (_, _, rest) => rest
      | none => c :: subVDDFirstGo cs (isWordChar c)
    else c :: subVDDFirstGo cs (isWordChar c)

/-- Remove the first `в HH MM` match. -/
def subVDDFirst (l : List Char) : List Char := subVDDFirstGo l false

/-- After `(?:в|во)` was consumed: `\s*(\d{1,2})\b`. -/
def tryVHAfter (l : List Char) : Option (Nat × List Char) :=
  let sp := takeRun isSpaceChar l
  let ds := takeRun isAsciiDigit sp.2
  if (ds.1.length = 1 || ds.1.length = 2) && noWordAhead ds.2 then
    some (digitsToNat ds.1, ds.2)
  else none

/-- `\b(?:в|во)\s*(\d{1,2})\b` at a fixed position. -/
def tryVHAt (l : List Char) : Option (Nat × List Char) :=
  match l with
  | c :: cs =>
    if lowerChar c = 'в' then
      match tryVHAfter cs with
      | some r => some r
      | none =>
        match cs with
        | c2 :: cs2 => if lowerChar c2 = 'о' then tryVHAfter cs2 else none
        | [] => none
    else none
  | [] => none

/-- Search for the third matcher. -/
def findVHGo : List Char → Bool → Option Nat
  | [], _ => none
  | c :: cs, prevW =>
    if !prevW then
      match tryVHAt (c :: cs) with
      | some (h, _) => some h
      | none => findVHGo cs (isWordChar c)
    else findVHGo cs (isWordChar c)

/-- `re.search(r"\b(?:в|во)\s*(\d{1,2})\b", s)`. -/
def findVH (l : List Char) : Option Nat := findVHGo l false

/-- `re.sub(r"\b(?:в|во)\s*\d{1,2}\b", "", s, count=1)`. -/
def subVHFirstGo : List Char → Bool → List Char
  | [], _ => []
  | c :: cs, prevW =>
    if !prevW then
      match tryVHAt (c :: cs) with
      | some (_, rest) => rest
      | none => c :: subVHFirstGo cs (isWordChar c)
    else c :: subVHFirstGo cs (isWordChar c)

/-- Remove the first `в HH` match. -/
def subVHFirst (l : List Char) : List Char := subVHFirstGo l false

/-- `\bчерез\s+(\d{1,4})\s*мин` at a fixed position (the search pattern of
the relative-duration fallback; no trailing boundary). -/
def tryCherezSearchAt (l : List Char) : Option Nat :=
  match startsWithCI "через".toList l with
  | none => none
  | some l1 =>
    let sp := takeRun isSpaceChar l1
    if sp.1.isEmpty then none
    else
      let ds := takeRun isAsciiDigit sp.2
      if ds.1.isEmpty || 4 < ds.1.length then none
      else
        let sp2 := takeRun isSpaceChar ds.2
        match startsWithCI "мин".toList sp2.2 with
        | some _ => some (digitsToNat ds.1)
        | none => none

/-- `re.search(r"\bчерез\s+(\d{1,4})\s*мин", s)`. -/
def findCherezMinGo : List Char → Bool → Option Nat
  | [], _ => none
  | c :: cs, prevW =>
    if !prevW then
      match tryCherezSearchAt (c :: cs) with
      | some n => some n
      | none => findCherezMinGo cs (isWordChar c)
    else findCherezMinGo cs (isWordChar c)

/-- The relative-duration fallback search. -/
def find_cherez_min (l : List Char) : Option Nat := findCherezMinGo l false

/-- Ordered alternatives each requiring a trailing `\b`; mirrors regex
alternation with the trailing boundary outside the group. -/
def altSuffix : List (List Char) → List Char → Option (List Char)
  | [], _ => none
  | s :: rest, l =>
    match startsWithCI s l with
    | some r => if noWordAhead r then some r else altSuffix rest l
    | none => altSuffix rest l

/-- `мин(ут|уты|уту)?\b` once `мин` was consumed: greedy group first, then
the empty alternative. -/
def tryMinSuffix (l : List Char) : Option (List Char) :=
  altSuffix ["ут".toList, "уты".toList, "уту".toList, ([] : List Char)] l

/-- `\bчерез\s+\d{1,4}\s*мин(ут|уты|уту)?\b` at a fixed position (the strip
pattern of the relative-duration fallback). -/
def tryCherezPhraseAt (l : List Char) : Option (List Char) :=
  match startsWithCI "через".toList l with
  | none => none
  | some l1 =>
    let sp := takeRun isSpaceChar l1
    if sp.1.isEmpty then none
    else
      let ds := takeRun isAsciiDigit sp.2
      if ds.1.isEmpty || 4 < ds.1.length then none
      else
        let sp2 := takeRun isSpaceChar ds.2
        match startsWithCI "мин".toList sp2.2 with
        | none => none
        | some l5 => tryMinSuffix l5

/-- Remove every `через N мин...` phrase. -/
def subCherezPhraseGo : Nat → List Char → Bool → List Char
  | 0, l, _ => l
  | _ + 1, [], _ => []
  | fuel + 1, c :: cs, prevW =>
    if !prevW then
      match tryCherezPhraseAt (c :: cs) with
      | some rest => subCherezPhraseGo fuel rest true
      | none => c :: subCherezPhraseGo fuel cs (isWordChar c)
    else c :: subCherezPhraseGo fuel cs (isWordChar c)

/-- `re.sub(r"\bчерез\s+\d{1,4}\s*мин(ут|уты|уту)?\b", "", s)`. -/
def subCherezPhrase (l : List Char) : List Char := subCherezPhraseGo l.length l false

/-! ### Whole-word substitutions (`re.sub` with `\b(w1|w2|...)\b`) -/

/-- First alternative that matches at this position with a trailing `\b`
(alternatives tried in the order they appear in the pattern). -/
def tryWordAlts : List String → List Char → Option (List Char)
  | [], _ => none
  | w :: rest, l =>
    match startsWithCI w.toList l with
    | some after => if noWordAhead after then some after else tryWordAlts rest l
    | none => tryWordAlts rest l

/-- Scanner for `re.sub(r"\b(w1|w2|...)\b", repl, s, flags=re.IGNORECASE)`. -/
def subAltsGo (ws : List String) (repl : List Char) : Nat → List Char → Bool → List Char
  | 0, l, _ => l
  | _ + 1, [], _ => []
  | fuel + 1, c :: cs, prevW =>
    if !prevW then
      match tryWordAlts ws (c :: cs) with
      | some after => repl ++ subAltsGo ws repl fuel after true
      | none => c :: subAltsGo ws repl fuel cs (isWordChar c)
    else c :: subAltsGo ws repl fuel cs (isWordChar c)

/-- Replace every delimited occurrence of one of `ws` by `repl`. -/
def subAlts (ws : List String) (repl : List Char) (l : List Char) : List Char :=
  subAltsGo ws repl l.length l false

/-- `re.sub(r"\b\d+\b", "", s)`: remove delimited digit runs. -/
def subDigitRunsGo : Nat → List Char → Bool → List Char
  | 0, l, _ => l
  | _ + 1, [], _ => []
  | fuel + 1, c :: cs, prevW =>
    if !prevW && isAsciiDigit c then
      let r := takeRun isAsciiDigit (c :: cs)
      if noWordAhead r.2 then subDigitRunsGo fuel r.2 true
      else c :: subDigitRunsGo fuel cs true
    else c :: subDigitRunsGo fuel cs (isWordChar c)

/-- Remove all delimited digit runs. -/
def subDigitRuns (l : List Char) : List Char := subDigitRunsGo l.length l false

/-- `re.sub(r"\s{2,}", " ", s)`: collapse runs of two or more whitespace
characters into one space. -/
def collapseSpacesGo : Nat → List Char → List Char
  | 0, l => l
  | _ + 1, [] => []
  | fuel + 1, c :: cs =>
    if isSpaceChar c then
      let r := takeRun isSpaceChar (c :: cs)
      if 2 ≤ r.1.length then ' ' :: collapseSpacesGo fuel r.2
      else c :: collapseSpacesGo fuel cs
    else c :: collapseSpacesGo fuel cs

/-- Collapse whitespace runs. -/
def collapseSpaces (l : List Char) : List Char := collapseSpacesGo l.length l

/-- `str.strip(...)` parameterized by the stripped character class. -/
def pyStripWhile (p : Char → Bool) (l : List Char) : List Char :=
  ((l.dropWhile p).reverse.dropWhile p).reverse

/-- `str.strip()` (whitespace). -/
def py_strip (l : List Char) : List Char := pyStripWhile isSpaceChar l

/-- `str.strip(" ,.-")`. -/
def py_strip_symbols (l : List Char) : List Char :=
  pyStripWhile (fun c => c = ' ' || c = ',' || c = '.' || c = '-') l

/-! ### The spoken-time matcher (`parse_spoken_time`) -/

/-- The `("час", "часа", "часов")` suffix test. -/
def hour_suffix_word (t : String) : Bool := t = "час" || t = "часа" || t = "часов"

/-- The `for i, tok in enumerate(tokens_local)` loop of `parse_spoken_time`:
at each `в`/`во` token, parse an hour, optionally skip an hour-unit word,
optionally parse a minute (default 0), and return the first pair passing the
`0 ≤ hour ≤ 23`, `0 ≤ minute ≤ 59` check. -/
def spoken_loop_go (tokens : List String) : Nat → List String → Option (Nat × Nat)
  | _, [] => none
  | i, tok :: rest =>
    if tok = "в" || tok = "во" then
      match parse_number tokens (i + 1) with
      | (none, _) => spoken_loop_go tokens (i + 1) rest
      | (some hour, j0) =>
        let j1 := if ((tokens.get? j0).map hour_suffix_word).getD false then j0 + 1 else j0
        let minute := (parse_number tokens j1).1.getD 0
        if hour ≤ 23 && minute ≤ 59 then some (hour, minute)
        else spoken_loop_go tokens (i + 1) rest
    else spoken_loop_go tokens (i + 1) rest

/-- `parse_spoken_time` on an already-extracted token list. -/
def spoken_from_tokens (toks : List String) : Option (Nat × Nat) :=
  if toks.contains "полдень" then some (12, 0)
  else if toks.contains "полночь" then some (0, 0)
  else spoken_loop_go toks 0 toks

/-- `parse_spoken_time(text_value)`: tokenize into letter runs, replace `ё`,
then run the loop. -/
def parse_spoken_time (s : List Char) : Option (Nat × Nat) :=
  spoken_from_tokens ((letter_tokens s).map (fun t => String.mk (t.toList.map yoFixChar)))

/-! ### Time-of-day resolution -/

/-- `Europe/Moscow` as a fixed `UTC+3` offset, in seconds. -/
def MOSCOW_OFFSET : Int := 10800

/-- Local wall-clock seconds of an epoch instant. -/
def local_of (now : Int) : Int := now + MOSCOW_OFFSET

/-- Start of the current local day, in local seconds
(`now.replace(hour=0, minute=0, second=0, microsecond=0)`). -/
def local_midnight (now : Int) : Int := local_of now - local_of now % 86400

/-- Today's local date at `hour:minute`, as an epoch instant
(`now.replace(hour=hour, minute=minute, second=0, microsecond=0)` converted
back to UTC). -/
def today_at (now : Int) (hour minute : Nat) : Int :=
  local_midnight now + (hour : Int) * 3600 + (minute : Int) * 60 - MOSCOW_OFFSET

/-- The shared resolution block of the time-of-day branches:
`target = now.replace(hour, minute, 0, 0); if target <= now: target += 1 day;`
`run_at = target.timestamp()`. -/
def resolve_tod (now : Int) (hour minute : Nat) : Int :=
  let target := local_midnight now + (hour : Int) * 3600 + (minute : Int) * 60
  let target2 := if target ≤ local_of now then target + 86400 else target
  target2 - MOSCOW_OFFSET

/-! ### Body extraction per branch -/

/-- The filler/imperative words stripped in the three digit time branches and
the spoken branch, in the pattern's alternation order. -/
def fillers_time : List String :=
  ["сделай", "поставь", "создай", "напомни", "напоминание", "на", "в", "мне", "пожалуйста"]

/-- The filler words of the token-based `через` branch. -/
def fillers_cherez_tok : List String :=
  ["сделай", "сделали", "поставь", "создай", "напомни", "напоминание", "мне", "пожалуйста"]

/-- The filler words of the regex-based `через` fallback branch. -/
def fillers_cherez_rx : List String :=
  ["сделай", "поставь", "создай", "напомни", "напоминание", "мне", "пожалуйста"]

/-- `мин(ут|уты|уту)?` as whole-word alternatives in greedy order. -/
def min_word_alts : List String := ["минут", "минуты", "минуту", "мин"]

/-- The number-word alternation of the `через` branch, in pattern order. -/
def number_words_alt : List String :=
  ["ноль", "один", "одна", "два", "две", "три", "четыре", "пять", "шесть", "семь",
   "восемь", "девять", "десять", "одиннадцать", "двенадцать", "тринадцать",
   "четырнадцать", "пятнадцать", "шестнадцать", "семнадцать", "восемнадцать",
   "девятнадцать", "двадцать", "тридцать", "сорок", "пятьдесят"]

/-- The `time_words` list of the spoken branch, in source order. -/
def time_words : List String :=
  ["в", "во", "час", "часа", "часов", "полдень", "полночь",
   "ноль", "один", "одна", "два", "две", "три", "четыре", "пять",
   "шесть", "семь", "восемь", "девять", "десять", "одиннадцать",
   "двенадцать", "тринадцать", "четырнадцать", "пятнадцать",
   "шестнадцать", "семнадцать", "восемнадцать", "девятнадцать",
   "двадцать", "тридцать", "сорок", "пятьдесят"]

/-- Body extraction of the `HH:MM` branch. -/
def strip_branch1 (text : String) : List Char :=
  py_strip_symbols (subAlts fillers_time [] (py_strip (subHHMM text.toList)))

/-- Body extraction of the `в HH MM` branch. -/
def strip_branch2 (text : String) : List Char :=
  py_strip_symbols (subAlts fillers_time [] (py_strip (subVDDFirst text.toList)))

/-- Body extraction of the `в HH` branch. -/
def strip_branch3 (text : String) : List Char :=
  py_strip_symbols (subAlts fillers_time [] (py_strip (subVHFirst text.toList)))

/-- Body extraction of the spoken branch: each time word replaced by a space,
whitespace collapsed, then the filler words. -/
def strip_spoken (text : String) : List Char :=
  let t1 := time_words.foldl (fun acc w => subAlts [w] [' '] acc) text.toList
  py_strip_symbols (subAlts fillers_time [] (py_strip (collapseSpaces t1)))

/-- Body extraction of the token-based `через` branch. -/
def strip_cherez_tok (text : String) : List Char :=
  let t1 := subAlts ["через"] [] text.toList
  let t2 := subAlts min_word_alts [] t1
  let t3 := subDigitRuns t2
  let t4 := py_strip_symbols (subAlts number_words_alt [] t3)
  py_strip_symbols (subAlts fillers_cherez_tok [] t4)

/-- Body extraction of the regex-based `через` fallback branch. -/
def strip_cherez_rx (text : String) : List Char :=
  let t1 := py_strip_symbols (subCherezPhrase text.toList)
  py_strip_symbols (subAlts fillers_cherez_rx [] t1)

/-! ### `parse_time_from_text` -/

/-- The `"❌ Неверное время."` error. -/
def invalid_time_msg : String := "❌ Неверное время."

/-- The `"❌ Количество минут должно быть больше 0"` error. -/
def invalid_duration_msg : String := "❌ Количество минут должно быть больше 0"

/-- The `"❌ Не смог распознать время."` error. -/
def unrecognized_msg : String := "❌ Не смог распознать время."

/-- The `"Напоминание"` placeholder substituted for an empty body. -/
def default_body : String := "Напоминание"

/-- `if not reminder_text: reminder_text = "Напоминание"`. -/
def body_or_default (l : List Char) : String :=
  if l.isEmpty then default_body else String.mk l

/-- `parse_time_from_text(text)` with the current time passed explicitly
(the source reads the clock inside; all reads within one call happen in the
same second for the purposes of this model).  Returns the `(body, run_at)`
pair or the user-facing error message. -/
def parse_time_from_text (text : String) (now : Int) : Except String (String × Int) :=
  match findHHMM (bot_lower text) with
  | some (hour, minute) =>
    if 23 < hour ∨ 59 < minute then .error invalid_time_msg
    else .ok (body_or_default (strip_branch1 text), resolve_tod now hour minute)
  | none =>
  match findVDD (bot_lower text) with
  | some (hour, minute) =>
    if 23 < hour ∨ 59 < minute then .error invalid_time_msg
    else .ok (body_or_default (strip_branch2 text), resolve_tod now hour minute)
  | none =>
  match findVH (bot_lower text) with
  | some hour =>
    if 23 < hour then .error invalid_time_msg
    else .ok (body_or_default (strip_branch3 text), resolve_tod now hour 0)
  | none =>
  match parse_spoken_time (bot_lower text) with
  | some (hour, minute) =>
    .ok (body_or_default (strip_spoken text), resolve_tod now hour minute)
  | none =>
  match (if (bot_tokens text).contains "через"
         then (parse_number (bot_tokens text) ((bot_tokens text).indexOf "через" + 1)).1
         else none) with
  | some minutes =>
    if minutes ≤ 0 then .error invalid_duration_msg
    else .ok (body_or_default (strip_cherez_tok text), now + (minutes : Int) * 60)
  | none =>
  match find_cherez_min (bot_lower text) with
  | some minutes =>
    if minutes ≤ 0 then .error invalid_duration_msg
    else .ok (body_or_default (strip_cherez_rx text), now + (minutes : Int) * 60)
  | none => .error unrecognized_msg

/-! ### The reminder store (the `reminders` table) -/

/-- One row of the `reminders` table. -/
structure Reminder where
  chat_id : Int
  text : String
  run_at : Int
  attempts : Nat
  acknowledged : Bool
  awaiting_confirm : Bool
deriving DecidableEq, Repr

/-- The table, keyed by `id`. -/
abbrev Store := List (Nat × Reminder)

/-- `SELECT ... FROM reminders WHERE id = ?` (`get_reminder`). -/
def store_get : Store → Nat → Option Reminder
  | [], _ => none
  | (i, r) :: t, id => if i = id then some r else store_get t id

/-- `DELETE FROM reminders WHERE id = ?` (`delete_reminder`); a no-op when the
row is absent. -/
def store_delete : Store → Nat → Store
  | [], _ => []
  | (i, r) :: t, id => if i = id then store_delete t id else (i, r) :: store_delete t id

/-- `UPDATE reminders SET ... WHERE id = ?` (`update_reminder_state`): the
row with this id gets the given field values; a no-op when the row is
absent.  `f` installs the explicit field values the caller passed. -/
def store_update : Store → Nat → (Reminder → Reminder) → Store
  | [], _, _ => []
  | (i, r) :: t, id, f =>
    if i = id then (i, f r) :: store_update t id f else (i, r) :: store_update t id f

/-- `INSERT INTO reminders (chat_id, text, run_at) VALUES (...)`
(`add_reminder`): `attempts`, `acknowledged`, `awaiting_confirm` take their
schema defaults `0`, `false`, `false`. -/
def add_reminder (s : Store) (id : Nat) (chat_id : Int) (text : String) (run_at : Int) : Store :=
  (id, ⟨chat_id, text, run_at, 0, false, false⟩) :: s

/-- `load_pending_reminders()`:
`SELECT id FROM reminders WHERE run_at >= now AND acknowledged = 0 AND awaiting_confirm = 0`. -/
def load_pending_reminders (now : Int) (s : Store) : List Nat :=
  (s.filter (fun p => decide (now ≤ p.2.run_at) && !p.2.acknowledged && !p.2.awaiting_confirm)).map
    (fun p => p.1)

/-! ### The process registry and the world

`TASKS` maps a reminder id to its one registered asyncio task.  Tasks are
modelled by generation numbers so that replacing a task is observable.
Cancelling a task and dropping it from the registry are one atomic action of
this cooperative model: a cancelled task performs no further store or
registry operations. -/

/-- Registered tasks: `(reminder id, task generation)`. -/
abbrev Tasks := List (Nat × Nat)

/-- `TASKS.get(id)`. -/
def tasks_lookup : Tasks → Nat → Option Nat
  | [], _ => none
  | (i, g) :: t, id => if i = id then some g else tasks_lookup t id

/-- `TASKS.pop(id, None)` (with cancellation of the popped task). -/
def tasks_remove : Tasks → Nat → Tasks
  | [], _ => []
  | (i, g) :: t, id => if i = id then tasks_remove t id else (i, g) :: tasks_remove t id

/-- The global state: clock, durable store, task registry, a generation
counter for tasks and the `id` sequence of the table. -/
structure World where
  now : Int
  store : Store
  tasks : Tasks
  gen : Nat
  next_id : Nat
deriving DecidableEq

/-- `schedule_reminder(app, reminder_id)`: pop and cancel any registered task
for this id, then register a fresh one. -/
def schedule_reminder (w : World) (id : Nat) : World :=
  { w with tasks := (id, w.gen) :: tasks_remove w.tasks id, gen := w.gen + 1 }

/-- `MAX_ATTEMPTS`. -/
def MAX_ATTEMPTS : Nat := 3

/-- `REPEAT_INTERVAL_SEC` (the spec's `RETRY_INTERVAL`). -/
def REPEAT_INTERVAL_SEC : Int := 120

/-! ### One iteration of `reminder_task` -/

/-- What one pass of the `while True` loop produced. -/
structure IterOut where
  now : Int
  store : Store
  sent_plain : Bool
  sent_esc : Bool
  done : Bool
deriving DecidableEq

/-- One pass of the `while True:` body of `reminder_task`: re-read the row;
vanished or acknowledged or awaiting-confirm rows end the task (the
acknowledged branch deletes the row); otherwise sleep until `run_at`
(modelled as advancing the clock) and loop, or escalate at the attempts cap,
or send the plain notification and reschedule `REPEAT_INTERVAL_SEC` ahead. -/
def reminder_task_iter (id : Nat) (now : Int) (store : Store) : IterOut :=
  match store_get store id with
  | none => ⟨now, store, false, false, true⟩
  | some r =>
    if r.acknowledged then ⟨now, store_delete store id, false, false, true⟩
    else if r.awaiting_confirm then ⟨now, store, false, false, true⟩
    else if now < r.run_at then ⟨r.run_at, store, false, false, false⟩
    else if MAX_ATTEMPTS ≤ r.attempts then
      ⟨now, store_update store id (fun q => { q with awaiting_confirm := true }), false, true, true⟩
    else
      ⟨now,
       store_update store id
         (fun q => { q with attempts := r.attempts + 1, run_at := now + REPEAT_INTERVAL_SEC }),
       true, false, false⟩

/-- Cumulative result of running the loop for a bounded number of passes. -/
structure RunOut where
  now : Int
  store : Store
  plain_count : Nat
  esc_count : Nat
  done : Bool
deriving DecidableEq

/-- Run `reminder_task`'s loop for at most `fuel` passes, counting the plain
notifications and escalation prompts it sends. -/
def reminder_task_run : Nat → Nat → Int → Store → RunOut
  | 0, _, now, store => ⟨now, store, 0, 0, false⟩
  | fuel + 1, id, now, store =>
    let o := reminder_task_iter id now store
    let pc : Nat := if o.sent_plain then 1 else 0
    let ec : Nat := if o.sent_esc then 1 else 0
    if o.done then ⟨o.now, o.store, pc, ec, true⟩
    else
      let rest := reminder_task_run fuel id o.now o.store
      ⟨rest.now, rest.store, pc + rest.plain_count, ec + rest.esc_count, rest.done⟩

/-- A task finishing pops itself from the registry (the `finally:` block);
a world-level loop pass for a registered task. -/
def world_task_step (w : World) (id : Nat) : World :=
  match tasks_lookup w.tasks id with
  | none => w
  | some _ =>
    let o := reminder_task_iter id w.now w.store
    { w with now := o.now, store := o.store,
             tasks := if o.done then tasks_remove w.tasks id else w.tasks }

/-! ### Callbacks (`on_callback`) -/

/-- The inbound callback signals. -/
inductive Callback where
  | del (id : Nat)
  | delCancel
  | ack (id : Nat)
  | confirmYes (id : Nat)
  | confirmNo (id : Nat)
deriving DecidableEq

/-- `on_callback`: `del:` and `ack:` and `confirm_yes:` pop-and-cancel the
task and delete the row; `confirm_no:` resets the row
(`attempts=0, awaiting_confirm=False, acknowledged=False,
run_at=now+REPEAT_INTERVAL_SEC`) and replaces the registered task. -/
def on_callback (w : World) (c : Callback) : World :=
  match c with
  | .delCancel => w
  | .del id =>
    { w with tasks := tasks_remove w.tasks id, store := store_delete w.store id }
  | .ack id =>
    { w with tasks := tasks_remove w.tasks id, store := store_delete w.store id }
  | .confirmYes id =>
    { w with tasks := tasks_remove w.tasks id, store := store_delete w.store id }
  | .confirmNo id =>
    let st := store_update w.store id
      (fun q => { q with attempts := 0, awaiting_confirm := false, acknowledged := false,
                         run_at := w.now + REPEAT_INTERVAL_SEC })
    schedule_reminder { w with store := st } id

/-! ### Creation, startup recovery, reachable worlds -/

/-- The happy path of `set_reminder`/`handle_voice` after a successful parse:
`add_reminder` then `schedule_reminder`. -/
def handle_create (w : World) (chat_id : Int) (text : String) (run_at : Int) : World :=
  schedule_reminder
    { w with store := add_reminder w.store w.next_id chat_id text run_at,
             next_id := w.next_id + 1 }
    w.next_id

/-- `set_reminder` on a free-text message: on a parse error nothing is
persisted and nothing is scheduled. -/
def handle_text (w : World) (chat_id : Int) (text : String) : World :=
  match parse_time_from_text text w.now with
  | .ok p => handle_create w chat_id p.1 p.2
  | .error _ => w

/-- `on_startup(app)`: spawn a task for every id of `load_pending_reminders`. -/
def on_startup (w : World) : World :=
  (load_pending_reminders w.now w.store).foldl schedule_reminder w

/-- The passage of time. -/
def world_tick (w : World) (d : Nat) : World := { w with now := w.now + (d : Int) }

/-- The worlds reachable through the program's own operations: the empty
initial state, the passage of time, reminder creation, callbacks, loop
passes of delivery tasks, and a restart (all in-memory tasks lost, then
startup recovery). -/
inductive Reach : World → Prop where
  | init : Reach ⟨0, [], [], 0, 0⟩
  | tick (w : World) (d : Nat) : Reach w → Reach (world_tick w d)
  | create (w : World) (chat_id : Int) (text : String) (run_at : Int) :
      Reach w → Reach (handle_create w chat_id text run_at)
  | callback (w : World) (c : Callback) : Reach w → Reach (on_callback w c)
  | taskStep (w : World) (id : Nat) : Reach w → Reach (world_task_step w id)
  | restart (w : World) : Reach w → Reach (on_startup { w with tasks := [] })

/-! ### Store and registry lemmas -/

theorem store_get_update (s : Store) (id j : Nat) (f : Reminder → Reminder) :
    store_get (store_update s id f) j =
      if j = id then (store_get s j).map f else store_get s j := by
  induction s with
  | nil => simp [store_update, store_get]
  | cons p t ih =>
    obtain ⟨i, r⟩ := p
    by_cases hi : i = id
    · subst hi
      by_cases hj : j = i
      · subst hj
        simp [store_update, store_get]
      · simp [store_update, store_get, hj, Ne.symm hj, ih]
    · by_cases hj : i = j
      · subst hj
        simp [store_update, store_get, hi, Ne.symm hi]
      · simp [store_update, store_get, hi, hj, ih]

theorem store_get_delete (s : Store) (id j : Nat) :
    store_get (store_delete s id) j = if j = id then none else store_get s j := by
  induction s with
  | nil => simp [store_delete, store_get]
  | cons p t ih =>
    obtain ⟨i, r⟩ := p
    by_cases hi : i = id
    · subst hi
      by_cases hj : j = i
      · subst hj
        simp [store_delete, store_get, ih]
      · simp [store_delete, store_get, hj, Ne.symm hj, ih]
    · by_cases hj : i = j
      · subst hj
        simp [store_delete, store_get, hi, Ne.symm hi]
      · simp [store_delete, store_get, hi, hj, ih]

theorem store_delete_of_get_none (s : Store) (id : Nat) (h : store_get s id = none) :
    store_delete s id = s := by
  induction s with
  | nil => simp [store_delete]
  | cons p t ih =>
    obtain ⟨i, r⟩ := p
    by_cases hi : i = id
    · subst hi
      simp [store_get] at h
    · simp only [store_get, hi, if_false, if_neg hi] at h
      simp [store_delete, hi, ih h]

theorem tasks_lookup_remove (ts : Tasks) (id j : Nat) :
    tasks_lookup (tasks_remove ts id) j = if j = id then none else tasks_lookup ts j := by
  induction ts with
  | nil => simp [tasks_remove, tasks_lookup]
  | cons p t ih =>
    obtain ⟨i, g⟩ := p
    by_cases hi : i = id
    · subst hi
      by_cases hj : j = i
      · subst hj
        simp [tasks_remove, tasks_lookup, ih]
      · simp [tasks_remove, tasks_lookup, hj, Ne.symm hj, ih]
    · by_cases hj : i = j
      · subst hj
        simp [tasks_remove, tasks_lookup, hi, Ne.symm hi]
      · simp [tasks_remove, tasks_lookup, hi, hj, ih]

theorem tasks_remove_of_lookup_none (ts : Tasks) (id : Nat)
    (h : tasks_lookup ts id = none) : tasks_remove ts id = ts := by
  induction ts with
  | nil => simp [tasks_remove]
  | cons p t ih =>
    obtain ⟨i, g⟩ := p
    by_cases hi : i = id
    · subst hi
      simp [tasks_lookup] at h
    · simp only [tasks_lookup, hi, if_neg hi] at h
      simp [tasks_remove, hi, ih h]

theorem mem_tasks_remove (ts : Tasks) (id : Nat) (p : Nat × Nat)
    (h : p ∈ tasks_remove ts id) : p.1 ≠ id ∧ p ∈ ts := by
  induction ts with
  | nil => simp [tasks_remove] at h
  | cons q t ih =>
    obtain ⟨i, g⟩ := q
    by_cases hi : i = id
    · subst hi
      simp only [tasks_remove, if_pos rfl] at h
      obtain ⟨h1, h2⟩ := ih h
      exact ⟨h1, List.mem_cons_of_mem _ h2⟩
    · simp only [tasks_remove, if_neg hi, List.mem_cons] at h
      rcases h with h | h
      · subst h
        exact ⟨hi, List.mem_cons_self _ _⟩
      · obtain ⟨h1, h2⟩ := ih h
        exact ⟨h1, List.mem_cons_of_mem _ h2⟩

/-! ### Claim C1 -/

/-- C1: the claim says startup recovery re-spawns a delivery process for
every persisted record with both flags false, including overdue ones, so an
overdue record is delivered upon restart.  The code disagrees: the query of
`load_pending_reminders` filters `run_at >= now`, so a record one second
overdue with both flags false is not returned and `on_startup` spawns
nothing for it, while a record with `run_at = now` is returned.  This
theorem evaluates the code at that failing input. -/
theorem C1_overdue_record_dropped_on_startup :
    load_pending_reminders 100 [(1, ⟨7, "молоко", 99, 0, false, false⟩)] = []
    ∧ (on_startup ⟨100, [(1, ⟨7, "молоко", 99, 0, false, false⟩)], [], 0, 2⟩).tasks = []
    ∧ (⟨7, "молоко", 99, 0, false, false⟩ : Reminder).acknowledged = false
    ∧ (⟨7, "молоко", 99, 0, false, false⟩ : Reminder).awaiting_confirm = false
    ∧ (99 : Int) < 100
    ∧ load_pending_reminders 100 [(1, ⟨7, "молоко", 100, 0, false, false⟩)] = [1] := by
  decide

/-! ### Claim C5 -/

/-- C5: when the explicit `HH:MM`/`HH.MM` digit pattern matches and the
captured hour exceeds 23 or the captured minute exceeds 59,
`parse_time_from_text` returns the InvalidTime error immediately — no later
matcher is consulted. -/
theorem C5_invalid_hhmm_short_circuits (text : String) (now : Int) (h m : Nat)
    (hf : findHHMM (bot_lower text) = some (h, m))
    (hbad : 23 < h ∨ 59 < m) :
    parse_time_from_text text now = .error invalid_time_msg := by
  unfold parse_time_from_text
  simp only [hf]
  rw [if_pos hbad]

/-- C5 witness: `"в 25:00 тест"` trips the hour bound. -/
theorem C5_witness :
    parse_time_from_text "в 25:00 тест" 0 = .error invalid_time_msg :=
  C5_invalid_hhmm_short_circuits "в 25:00 тест" 0 25 0 (by decide) (Or.inl (by decide))

/-! ### Claim C2 -/

/-- C2 counterexample: `"через 5 минут в 12:00 встреча"` is an input of the
form `через N минут …` with `N = 5 > 0`, yet the higher-priority `HH:MM`
matcher wins and `parse_time_from_text` returns the 12:00 time-of-day
instant (`32400`, i.e. today 12:00 MSK seen from 10:00 MSK), not
`now + 5*60 = 25500`. -/
theorem C2_counterexample :
    (parse_time_from_text "через 5 минут в 12:00 встреча" 25200).toOption.map Prod.snd
        = some 32400
    ∧ (32400 : Int) ≠ 25200 + 5 * 60 := by
  decide

/-- C2 (amended): for an input whose text is not claimed by any
higher-priority matcher (no `HH:MM`/`HH.MM` pattern, no `в HH MM`, no
`в HH`, no spoken time), where `через` occurs among the tokens and the
token after the first `через` parses as a number `N`: if `N > 0` the parser
returns the stripped body with `runAt = now + N*60`, and if `N = 0`
(`N ≤ 0` for these non-negative token values) it returns the
InvalidDuration error and `set_reminder` persists nothing and schedules
nothing. -/
theorem C2_relative_duration (text : String) (now : Int) (n : Nat)
    (h1 : findHHMM (bot_lower text) = none)
    (h2 : findVDD (bot_lower text) = none)
    (h3 : findVH (bot_lower text) = none)
    (h4 : parse_spoken_time (bot_lower text) = none)
    (h5 : (bot_tokens text).contains "через" = true)
    (h6 : (parse_number (bot_tokens text) ((bot_tokens text).indexOf "через" + 1)).1 = some n) :
    (0 < n →
      parse_time_from_text text now =
        .ok (body_or_default (strip_cherez_tok text), now + (n : Int) * 60))
    ∧ (n = 0 → parse_time_from_text text now = .error invalid_duration_msg)
    ∧ (n = 0 → ∀ (w : World) (chat : Int), handle_text w chat text = w) := by
  have main : ∀ t : Int,
      parse_time_from_text text t =
        if n ≤ 0 then .error invalid_duration_msg
        else .ok (body_or_default (strip_cherez_tok text), t + (n : Int) * 60) := by
    intro t
    unfold parse_time_from_text
    simp only [h1, h2, h3, h4, h5, if_true, h6]
  refine ⟨fun hn => ?_, fun hn => ?_, fun hn w chat => ?_⟩
  · rw [main now, if_neg (by omega)]
  · rw [main now, if_pos (by omega)]
  · unfold handle_text
    rw [main w.now, if_pos (by omega)]

/-- C2 witness: `"через 5 минут позвонить"` resolves to `now + 300`, and
`"через 0 минут чайник"` yields the InvalidDuration error. -/
theorem C2_witness :
    parse_time_from_text "через 5 минут позвонить" 1000 = .ok ("позвонить", 1300)
    ∧ parse_time_from_text "через 0 минут чайник" 1000 = .error invalid_duration_msg := by
  constructor
  · have h := (C2_relative_duration "через 5 минут позвонить" 1000 5
      (by decide) (by decide) (by decide) (by decide) (by decide) (by decide)).1 (by decide)
    rw [h]
    rfl
  · exact (C2_relative_duration "через 0 минут чайник" 1000 0
      (by decide) (by decide) (by decide) (by decide) (by decide) (by decide)).2.1 rfl

/-! ### Claim C3 -/

/-- The three digit matchers in their priority order, as one view: the
(hour, minute) pair the explicit-time branches will validate and resolve
(the hour-only matcher contributes minute 0). -/
def explicit_digit_time (l : List Char) : Option (Nat × Nat) :=
  match findHHMM l with
  | some (h, m) => some (h, m)
  | none =>
    match findVDD l with
    | some (h, m) => some (h, m)
    | none =>
      match findVH l with
      | some h => some (h, 0)
      | none => none

/-- C3: for every valid explicit-time input, the parsed hour:minute is
resolved against today's date in the fixed reference timezone and rolled
forward exactly one day exactly when that moment is not strictly in the
future; and the end-to-end example: `"в 9 купить молоко"` at 10:00 MSK
(epoch 25200) yields tomorrow 09:00 MSK (epoch 108000) with body
`"купить молоко"`. -/
theorem C3_explicit_time_resolution (text : String) (now : Int) (h m : Nat)
    (hfind : explicit_digit_time (bot_lower text) = some (h, m))
    (hh : h ≤ 23) (hm : m ≤ 59) :
    (∃ body : String, parse_time_from_text text now = .ok (body, resolve_tod now h m))
    ∧ (resolve_tod now h m = today_at now h m ∨
        resolve_tod now h m = today_at now h m + 86400)
    ∧ (resolve_tod now h m = today_at now h m + 86400 ↔ today_at now h m ≤ now)
    ∧ (resolve_tod now h m = today_at now h m ↔ now < today_at now h m)
    ∧ parse_time_from_text "в 9 купить молоко" 25200 = .ok ("купить молоко", 108000) := by
  have hvalid : ¬(23 < h ∨ 59 < m) := by omega
  have hmain : ∃ body : String,
      parse_time_from_text text now = .ok (body, resolve_tod now h m) := by
    unfold explicit_digit_time at hfind
    unfold parse_time_from_text
    cases e1 : findHHMM (bot_lower text) with
    | some p =>
      obtain ⟨h1, m1⟩ := p
      simp only [e1] at hfind ⊢
      obtain ⟨rfl, rfl⟩ : h1 = h ∧ m1 = m := by
        simpa using hfind
      rw [if_neg hvalid]
      exact ⟨_, rfl⟩
    | none =>
      simp only [e1] at hfind ⊢
      cases e2 : findVDD (bot_lower text) with
      | some p =>
        obtain ⟨h1, m1⟩ := p
        simp only [e2] at hfind ⊢
        obtain ⟨rfl, rfl⟩ : h1 = h ∧ m1 = m := by
          simpa using hfind
        rw [if_neg hvalid]
        exact ⟨_, rfl⟩
      | none =>
        simp only [e2] at hfind ⊢
        cases e3 : findVH (bot_lower text) with
        | some h1 =>
          simp only [e3] at hfind ⊢
          have e : h1 = h ∧ 0 = m := by simpa using hfind
          rw [e.1, ← e.2]
          rw [if_neg (by omega : ¬23 < h)]
          exact ⟨_, rfl⟩
        | none =>
          simp only [e3] at hfind
          cases hfind
  have harith : (resolve_tod now h m = today_at now h m ∨
        resolve_tod now h m = today_at now h m + 86400)
      ∧ (resolve_tod now h m = today_at now h m + 86400 ↔ today_at now h m ≤ now)
      ∧ (resolve_tod now h m = today_at now h m ↔ now < today_at now h m) := by
    unfold resolve_tod today_at local_midnight local_of MOSCOW_OFFSET
    dsimp only
    split
    · refine ⟨Or.inr (by omega), ⟨fun _ => by omega, fun _ => by omega⟩,
        ⟨fun hc => by omega, fun hc => by omega⟩⟩
    · refine ⟨Or.inl (by omega), ⟨fun hc => by omega, fun _ => by omega⟩,
        ⟨fun _ => by omega, fun hc => by omega⟩⟩
  exact ⟨hmain, harith.1, harith.2.1, harith.2.2, by rfl⟩

/-- C3 witness: instantiated at the spec's own example. -/
theorem C3_witness :
    (∃ body : String,
      parse_time_from_text "в 9 купить молоко" 25200 = .ok (body, resolve_tod 25200 9 0))
    ∧ (resolve_tod 25200 9 0 = today_at 25200 9 0 + 86400 ↔ today_at 25200 9 0 ≤ 25200) := by
  have h := C3_explicit_time_resolution "в 9 купить молоко" 25200 9 0 (by decide)
    (by decide) (by decide)
  exact ⟨h.1, h.2.2.1⟩

/-! ### Claim C4 -/

/-- C4 counterexample: the claim says the preposition `в/во` is optional
before the number words, but `parse_spoken_time` only examines positions
after a `в`/`во` token: `"двенадцать часов"` — a recognized number word
(worth 12) followed by an hour word, with no preposition — is not
recognized. -/
theorem C4_counterexample :
    parse_spoken_time (bot_lower "двенадцать часов") = none
    ∧ parse_number ["двенадцать"] 0 = (some 12, 1) := by
  decide

/-- Boolean `contains` from propositional membership. -/
theorem contains_true_of_mem {l : List String} {a : String} (h : a ∈ l) :
    l.contains a = true := List.elem_eq_true_of_mem h

/-- Boolean `contains` from propositional non-membership. -/
theorem contains_false_of_not_mem {l : List String} {a : String} (h : a ∉ l) :
    l.contains a = false := by
  cases hc : l.contains a
  · rfl
  · exact absurd (List.mem_of_elem_eq_true hc) h

/-- The enumerate loop returns nothing when no traversed token is the
preposition. -/
theorem spoken_loop_go_none (tokens : List String) :
    ∀ (l : List String) (i : Nat), (∀ t ∈ l, t ≠ "в" ∧ t ≠ "во") →
      spoken_loop_go tokens i l = none := by
  intro l
  induction l with
  | nil => intro i _; rfl
  | cons tok rest ih =>
    intro i hl
    have h1 := hl tok (List.mem_cons_self _ _)
    unfold spoken_loop_go
    rw [if_neg]
    · exact ih (i + 1) (fun t ht => hl t (List.mem_cons_of_mem _ ht))
    · simp only [Bool.or_eq_true, decide_eq_true_eq]
      rintro (h | h)
      · exact h1.1 h
      · exact h1.2 h

/-- C4 (amended): `parse_number` recognizes spelled numbers — tens followed
by a unit as their sum (at most 59), teens and units directly — and the
spoken-word matcher recognizes the literals `полдень` (12:00, checked
first) and `полночь` (00:00) anywhere in the token list; but for number
words the preposition `в`/`во` is required — a token list without `в`,
`во`, `полдень` or `полночь` is never recognized — and with the
preposition a number word worth at most 23 is accepted as the hour, with
`час/часа/часов` as an optional suffix. -/
theorem C4_spoken_time_matcher :
    (∀ (t u : String) (vt vu : Nat) (rest : List String),
        (t, vt) ∈ tens → (u, vu) ∈ units →
        parse_number (t :: u :: rest) 0 = (some (vt + vu), 2) ∧ vt + vu ≤ 59)
    ∧ (∀ (w : String) (v : Nat) (rest : List String),
        (w, v) ∈ teens → parse_number (w :: rest) 0 = (some v, 1))
    ∧ (∀ (w : String) (v : Nat) (rest : List String),
        (w, v) ∈ units → parse_number (w :: rest) 0 = (some v, 1))
    ∧ (∀ toks : List String, "полдень" ∈ toks → spoken_from_tokens toks = some (12, 0))
    ∧ (∀ toks : List String, "полдень" ∉ toks → "полночь" ∈ toks →
        spoken_from_tokens toks = some (0, 0))
    ∧ (∀ toks : List String, "в" ∉ toks → "во" ∉ toks → "полдень" ∉ toks →
        "полночь" ∉ toks → spoken_from_tokens toks = none)
    ∧ (∀ (w : String) (v : Nat),
        (w, v) ∈ units ++ teens ++ [("двадцать", 20)] →
        spoken_from_tokens ["в", w] = some (v, 0)
        ∧ spoken_from_tokens ["во", w, "часов"] = some (v, 0)) := by
  refine ⟨?_, ?_, ?_, ?_, ?_, ?_, ?_⟩
  · intro t u vt vu rest ht hu
    simp only [tens, units] at ht hu
    fin_cases ht <;> fin_cases hu <;> exact ⟨rfl, by omega⟩
  · intro w v rest hw
    simp only [teens] at hw
    fin_cases hw <;> rfl
  · intro w v rest hw
    simp only [units] at hw
    fin_cases hw <;> rfl
  · intro toks hmem
    unfold spoken_from_tokens
    rw [if_pos (contains_true_of_mem hmem)]
  · intro toks hnot hmem
    unfold spoken_from_tokens
    rw [if_neg, if_pos (contains_true_of_mem hmem)]
    simpa using hnot
  · intro toks hv hvo hpd hpn
    unfold spoken_from_tokens
    rw [if_neg, if_neg]
    · exact spoken_loop_go_none toks toks 0
        (fun t ht => ⟨fun he => hv (he ▸ ht), fun he => hvo (he ▸ ht)⟩)
    · simpa using hpn
    · simpa using hpd
  · intro w v hw
    simp only [units, teens, List.cons_append, List.nil_append] at hw
    fin_cases hw <;> exact ⟨rfl, rfl⟩

/-- C4 witness: with the preposition, `в двенадцать` is 12:00; without it,
`двенадцать часов` is not recognized. -/
theorem C4_witness :
    spoken_from_tokens ["в", "двенадцать"] = some (12, 0)
    ∧ spoken_from_tokens ["двенадцать", "часов"] = none := by
  constructor
  · exact (C4_spoken_time_matcher.2.2.2.2.2.2 "двенадцать" 12 (by decide)).1
  · exact C4_spoken_time_matcher.2.2.2.2.2.1 ["двенадцать", "часов"]
      (by decide) (by decide) (by decide) (by decide)

/-! ### Claim C6 -/

/-- Shape of one loop pass at wake time below the attempts cap: the plain
notification is sent, `attempts` is written back incremented by exactly one
and `run_at` moves `REPEAT_INTERVAL_SEC` ahead, and the loop continues. -/
theorem reminder_task_iter_plain (id : Nat) (now : Int) (store : Store) (r : Reminder)
    (hget : store_get store id = some r)
    (hack : r.acknowledged = false) (hawait : r.awaiting_confirm = false)
    (hdue : r.run_at ≤ now) (hlt : r.attempts < MAX_ATTEMPTS) :
    reminder_task_iter id now store =
      ⟨now,
       store_update store id
         (fun q => { q with attempts := r.attempts + 1, run_at := now + REPEAT_INTERVAL_SEC }),
       true, false, false⟩ := by
  unfold reminder_task_iter
  simp only [hget, hack, hawait]
  rw [if_neg (by simp), if_neg (by simp), if_neg (not_lt.mpr hdue), if_neg (by omega)]

/-- Shape of one loop pass at wake time at the attempts cap: the escalation
prompt is sent, `awaiting_confirm` is persisted and the task ends. -/
theorem reminder_task_iter_esc (id : Nat) (now : Int) (store : Store) (r : Reminder)
    (hget : store_get store id = some r)
    (hack : r.acknowledged = false) (hawait : r.awaiting_confirm = false)
    (hdue : r.run_at ≤ now) (hcap : MAX_ATTEMPTS ≤ r.attempts) :
    reminder_task_iter id now store =
      ⟨now, store_update store id (fun q => { q with awaiting_confirm := true }),
       false, true, true⟩ := by
  unfold reminder_task_iter
  simp only [hget, hack, hawait]
  rw [if_neg (by simp), if_neg (by simp), if_neg (not_lt.mpr hdue), if_pos hcap]

/-- Every record's `attempts` is within the cap. -/
def store_attempts_le (s : Store) : Prop :=
  ∀ id r, store_get s id = some r → r.attempts ≤ MAX_ATTEMPTS

/-- One loop pass preserves the attempts cap on the whole store. -/
theorem iter_preserves_attempts_le (id : Nat) (now : Int) (store : Store)
    (h : store_attempts_le store) :
    store_attempts_le (reminder_task_iter id now store).store := by
  unfold reminder_task_iter
  cases hg : store_get store id with
  | none => simpa using h
  | some r =>
    simp only
    split_ifs with h1 h2 h3 h4
    · intro j q hq
      rw [store_get_delete] at hq
      split at hq
      · cases hq
      · exact h j q hq
    · exact h
    · exact h
    · intro j q hq
      rw [store_get_update] at hq
      split at hq
      · obtain ⟨r0, hr0, hfr⟩ := Option.map_eq_some'.mp hq
        have := h j r0 hr0
        rw [← hfr]
        exact this
      · exact h j q hq
    · intro j q hq
      rw [store_get_update] at hq
      split at hq
      · obtain ⟨r0, hr0, hfr⟩ := Option.map_eq_some'.mp hq
        rw [← hfr]
        simp only [MAX_ATTEMPTS] at h4 ⊢
        omega
      · exact h j q hq

/-- A whole bounded run preserves the attempts cap. -/
theorem run_preserves_attempts_le (fuel : Nat) :
    ∀ (id : Nat) (now : Int) (store : Store), store_attempts_le store →
      store_attempts_le (reminder_task_run fuel id now store).store := by
  induction fuel with
  | zero => intro id now store h; exact h
  | succ n ih =>
    intro id now store h
    unfold reminder_task_run
    dsimp only
    split
    · exact iter_preserves_attempts_le id now store h
    · exact ih id _ _ (iter_preserves_attempts_le id now store h)

/-- C6: at wake time below the cap, exactly one plain delivery happens and
`attempts` goes up by exactly 1, staying within `MAX_ATTEMPTS`; the cap is
an invariant of arbitrarily long runs; and at wake time with the cap
reached, the whole remaining run sends exactly one escalation prompt and no
plain notification, persists `awaiting_confirm = true`, and the task
terminates. -/
theorem C6_attempts_cap (id : Nat) (now : Int) (store : Store) (r : Reminder) (fuel : Nat)
    (hget : store_get store id = some r)
    (hack : r.acknowledged = false) (hawait : r.awaiting_confirm = false)
    (hdue : r.run_at ≤ now) :
    (r.attempts < MAX_ATTEMPTS →
      (reminder_task_iter id now store).sent_plain = true
      ∧ store_get (reminder_task_iter id now store).store id =
          some { r with attempts := r.attempts + 1, run_at := now + REPEAT_INTERVAL_SEC }
      ∧ r.attempts + 1 ≤ MAX_ATTEMPTS)
    ∧ (MAX_ATTEMPTS ≤ r.attempts →
        (reminder_task_run (fuel + 1) id now store).esc_count = 1
        ∧ (reminder_task_run (fuel + 1) id now store).plain_count = 0
        ∧ store_get (reminder_task_run (fuel + 1) id now store).store id =
            some { r with awaiting_confirm := true }
        ∧ (reminder_task_run (fuel + 1) id now store).done = true)
    ∧ (store_attempts_le store →
        store_attempts_le (reminder_task_run fuel id now store).store) := by
  refine ⟨fun hlt => ?_, fun hcap => ?_, run_preserves_attempts_le fuel id now store⟩
  · rw [reminder_task_iter_plain id now store r hget hack hawait hdue hlt]
    refine ⟨rfl, ?_, by simp only [MAX_ATTEMPTS] at hlt ⊢; omega⟩
    rw [store_get_update, if_pos rfl, hget]
    rfl
  · have hiter := reminder_task_iter_esc id now store r hget hack hawait hdue hcap
    have hrun : reminder_task_run (fuel + 1) id now store =
        ⟨now, store_update store id (fun q => { q with awaiting_confirm := true }),
         0, 1, true⟩ := by
      unfold reminder_task_run
      rw [hiter]
      rfl
    refine ⟨by rw [hrun], by rw [hrun], ?_, by rw [hrun]⟩
    rw [hrun]
    dsimp only
    rw [store_get_update, if_pos rfl, hget]
    rfl

/-- C6 witness: a due record at the cap (attempts = 3) escalates exactly
once and sends no plain notification. -/
theorem C6_witness :
    (reminder_task_run 6 1 200 [(1, ⟨5, "чай", 100, 3, false, false⟩)]).esc_count = 1
    ∧ (reminder_task_run 6 1 200 [(1, ⟨5, "чай", 100, 3, false, false⟩)]).plain_count = 0 := by
  have h := (C6_attempts_cap 1 200 [(1, ⟨5, "чай", 100, 3, false, false⟩)]
      ⟨5, "чай", 100, 3, false, false⟩ 5 rfl rfl rfl (by decide)).2.1 (by decide)
  exact ⟨h.1, h.2.1⟩

/-! ### Claim C7 -/

/-- A loop pass that removed the record must have found it acknowledged. -/
theorem iter_deletes_only_acknowledged (id : Nat) (now : Int) (store : Store) (r : Reminder)
    (hget : store_get store id = some r)
    (hnone : store_get (reminder_task_iter id now store).store id = none) :
    r.acknowledged = true := by
  by_cases hack : r.acknowledged = true
  · exact hack
  · exfalso
    unfold reminder_task_iter at hnone
    simp only [hget] at hnone
    rw [if_neg hack] at hnone
    by_cases hawait : r.awaiting_confirm = true
    · rw [if_pos hawait] at hnone
      dsimp only at hnone
      rw [hget] at hnone
      cases hnone
    · rw [if_neg hawait] at hnone
      by_cases hlt : now < r.run_at
      · rw [if_pos hlt] at hnone
        dsimp only at hnone
        rw [hget] at hnone
        cases hnone
      · rw [if_neg hlt] at hnone
        by_cases hcap : MAX_ATTEMPTS ≤ r.attempts
        · rw [if_pos hcap] at hnone
          dsimp only at hnone
          rw [store_get_update, if_pos rfl, hget] at hnone
          cases hnone
        · rw [if_neg hcap] at hnone
          dsimp only at hnone
          rw [store_get_update, if_pos rfl, hget] at hnone
          cases hnone

/-- C7: a record disappears exactly through acknowledgement or an explicit
terminal callback.  (1) The escalation pass keeps the record persisted, only
flipping `awaiting_confirm`; (2) a delivery-loop pass deletes the record
only when it found it `acknowledged`; (3) a callback that removes an
existing record is `del`, `ack` or `confirm_yes` for that id; and (4) those
three do remove it. -/
theorem C7_delete_discipline (w : World) (id : Nat) (now : Int) (store : Store)
    (r : Reminder) (c : Callback) :
    (store_get store id = some r → r.acknowledged = false → r.awaiting_confirm = false →
      r.run_at ≤ now → MAX_ATTEMPTS ≤ r.attempts →
      store_get (reminder_task_iter id now store).store id =
        some { r with awaiting_confirm := true })
    ∧ (store_get store id = some r →
        store_get (reminder_task_iter id now store).store id = none →
        r.acknowledged = true)
    ∧ (store_get w.store id = some r → store_get (on_callback w c).store id = none →
        c = .del id ∨ c = .ack id ∨ c = .confirmYes id)
    ∧ (store_get (on_callback w (.ack id)).store id = none
       ∧ store_get (on_callback w (.confirmYes id)).store id = none
       ∧ store_get (on_callback w (.del id)).store id = none) := by
  refine ⟨?_, ?_, ?_, ?_⟩
  · intro hget hack hawait hdue hcap
    rw [reminder_task_iter_esc id now store r hget hack hawait hdue hcap]
    dsimp only
    rw [store_get_update, if_pos rfl, hget]
    rfl
  · exact fun hget hnone => iter_deletes_only_acknowledged id now store r hget hnone
  · intro hget hnone
    cases c with
    | delCancel =>
      exfalso
      rw [show on_callback w .delCancel = w from rfl, hget] at hnone
      cases hnone
    | del i =>
      dsimp only [on_callback] at hnone
      rw [store_get_delete] at hnone
      split at hnone
      · rename_i hid
        exact Or.inl (by rw [hid])
      · rw [hget] at hnone
        cases hnone
    | ack i =>
      dsimp only [on_callback] at hnone
      rw [store_get_delete] at hnone
      split at hnone
      · rename_i hid
        exact Or.inr (Or.inl (by rw [hid]))
      · rw [hget] at hnone
        cases hnone
    | confirmYes i =>
      dsimp only [on_callback] at hnone
      rw [store_get_delete] at hnone
      split at hnone
      · rename_i hid
        exact Or.inr (Or.inr (by rw [hid]))
      · rw [hget] at hnone
        cases hnone
    | confirmNo i =>
      exfalso
      dsimp only [on_callback, schedule_reminder] at hnone
      rw [store_get_update] at hnone
      split at hnone
      · rw [hget] at hnone
        cases hnone
      · rw [hget] at hnone
        cases hnone
  · refine ⟨?_, ?_, ?_⟩ <;>
    · dsimp only [on_callback]
      rw [store_get_delete, if_pos rfl]

/-- C7 witness: with one record at the cap and due, the escalation pass
leaves it persisted with `awaiting_confirm = true`, and an `ack` callback
deletes it. -/
theorem C7_witness :
    store_get (reminder_task_iter 1 200 [(1, ⟨5, "чай", 100, 3, false, false⟩)]).store 1 =
      some ⟨5, "чай", 100, 3, false, true⟩
    ∧ store_get (on_callback ⟨200, [(1, ⟨5, "чай", 100, 3, false, false⟩)], [(1, 0)], 1, 2⟩
        (.ack 1)).store 1 = none := by
  constructor
  · exact (C7_delete_discipline ⟨200, [], [], 0, 0⟩ 1 200
      [(1, ⟨5, "чай", 100, 3, false, false⟩)] ⟨5, "чай", 100, 3, false, false⟩
      .delCancel).1 rfl rfl rfl (by decide) (by decide)
  · exact (C7_delete_discipline ⟨200, [(1, ⟨5, "чай", 100, 3, false, false⟩)], [(1, 0)], 1, 2⟩
      1 200 [] ⟨5, "чай", 100, 3, false, false⟩ .delCancel).2.2.2.1

/-! ### Claim C8 -/

/-- Shape of one loop pass before wake time: sleep until `run_at` and loop. -/
theorem reminder_task_iter_sleep (id : Nat) (now : Int) (store : Store) (r : Reminder)
    (hget : store_get store id = some r)
    (hack : r.acknowledged = false) (hawait : r.awaiting_confirm = false)
    (hlt : now < r.run_at) :
    reminder_task_iter id now store = ⟨r.run_at, store, false, false, false⟩ := by
  unfold reminder_task_iter
  simp only [hget, hack, hawait]
  rw [if_neg (by simp), if_neg (by simp), if_pos hlt]

/-- C8: `confirm_no(id)` writes `attempts=0`, `awaitingConfirm=false`,
`acknowledged=false`, `runAt=now+REPEAT_INTERVAL_SEC` to the persisted
record; it replaces the registered task for the id (the registry holds
exactly the fresh task, any old registration is gone); and the replaced
task performs exactly one plain delivery, at `now + REPEAT_INTERVAL_SEC`,
over its first two passes (sleep, then deliver). -/
theorem C8_confirm_no (w : World) (id : Nat) (r : Reminder)
    (hr : store_get w.store id = some r) :
    store_get (on_callback w (.confirmNo id)).store id =
      some { r with attempts := 0, awaiting_confirm := false, acknowledged := false,
                    run_at := w.now + REPEAT_INTERVAL_SEC }
    ∧ tasks_lookup (on_callback w (.confirmNo id)).tasks id = some w.gen
    ∧ (∀ g, (id, g) ∈ (on_callback w (.confirmNo id)).tasks → g = w.gen)
    ∧ (reminder_task_run 2 id w.now (on_callback w (.confirmNo id)).store).plain_count = 1
    ∧ (reminder_task_run 2 id w.now (on_callback w (.confirmNo id)).store).esc_count = 0
    ∧ (reminder_task_run 2 id w.now (on_callback w (.confirmNo id)).store).now
        = w.now + REPEAT_INTERVAL_SEC := by
  have hget2 : store_get (on_callback w (.confirmNo id)).store id =
      some { r with attempts := 0, awaiting_confirm := false, acknowledged := false,
                    run_at := w.now + REPEAT_INTERVAL_SEC } := by
    show store_get (store_update w.store id _) id = _
    rw [store_get_update, if_pos rfl, hr]
    rfl
  have h1 := reminder_task_iter_sleep id w.now (on_callback w (.confirmNo id)).store
    { r with attempts := 0, awaiting_confirm := false, acknowledged := false,
             run_at := w.now + REPEAT_INTERVAL_SEC }
    hget2 rfl rfl (by simp only [REPEAT_INTERVAL_SEC]; omega)
  have h2 := reminder_task_iter_plain id (w.now + REPEAT_INTERVAL_SEC)
    (on_callback w (.confirmNo id)).store
    { r with attempts := 0, awaiting_confirm := false, acknowledged := false,
             run_at := w.now + REPEAT_INTERVAL_SEC }
    hget2 rfl rfl (le_refl _) (by simp [MAX_ATTEMPTS])
  refine ⟨hget2, ?_, ?_, ?_, ?_, ?_⟩
  · show tasks_lookup ((id, w.gen) :: tasks_remove w.tasks id) id = some w.gen
    simp [tasks_lookup]
  · intro g hg
    have hg2 : (id, g) ∈ (id, w.gen) :: tasks_remove w.tasks id := hg
    rcases List.mem_cons.mp hg2 with h | h
    · simpa using h
    · exact absurd rfl (mem_tasks_remove _ _ _ h).1
  · simp [reminder_task_run, h1, h2]
  · simp [reminder_task_run, h1, h2]
  · simp [reminder_task_run, h1, h2]

/-- C8 witness: a concrete world with an escalated record and a stale task
registration. -/
theorem C8_witness :
    store_get (on_callback ⟨1000, [(4, ⟨9, "хлеб", 700, 3, false, true⟩)], [(4, 0)], 1, 5⟩
        (.confirmNo 4)).store 4 = some ⟨9, "хлеб", 1120, 0, false, false⟩
    ∧ tasks_lookup (on_callback ⟨1000, [(4, ⟨9, "хлеб", 700, 3, false, true⟩)], [(4, 0)], 1, 5⟩
        (.confirmNo 4)).tasks 4 = some 1
    ∧ (reminder_task_run 2 4 1000
        (on_callback ⟨1000, [(4, ⟨9, "хлеб", 700, 3, false, true⟩)], [(4, 0)], 1, 5⟩
          (.confirmNo 4)).store).plain_count = 1 := by
  have h := C8_confirm_no ⟨1000, [(4, ⟨9, "хлеб", 700, 3, false, true⟩)], [(4, 0)], 1, 5⟩ 4
    ⟨9, "хлеб", 700, 3, false, true⟩ rfl
  exact ⟨h.1, h.2.1, h.2.2.2.1⟩

/-! ### Claim C9 -/

/-- C9: `ack`, `confirm_yes` and explicit `del` on an id whose record is
already gone (and, per the replace-on-terminal invariant, no task is
registered) are exact no-ops: the handler is total (no error path) and both
the store and the process registry are returned unchanged — nothing is
deleted twice. -/
theorem C9_redundant_terminal_noop (w : World) (id : Nat)
    (h1 : store_get w.store id = none) (h2 : tasks_lookup w.tasks id = none) :
    on_callback w (.ack id) = w
    ∧ on_callback w (.confirmYes id) = w
    ∧ on_callback w (.del id) = w := by
  have hs := store_delete_of_get_none w.store id h1
  have ht := tasks_remove_of_lookup_none w.tasks id h2
  refine ⟨?_, ?_, ?_⟩ <;>
  · show ({ w with tasks := tasks_remove w.tasks id, store := store_delete w.store id } : World) = w
    rw [hs, ht]

/-- C9 witness: a world holding an unrelated record and an unrelated task. -/
theorem C9_witness :
    on_callback ⟨50, [(2, ⟨3, "x", 90, 0, false, false⟩)], [(2, 7)], 8, 3⟩ (.ack 1) =
      ⟨50, [(2, ⟨3, "x", 90, 0, false, false⟩)], [(2, 7)], 8, 3⟩
    ∧ on_callback ⟨50, [(2, ⟨3, "x", 90, 0, false, false⟩)], [(2, 7)], 8, 3⟩ (.del 1) =
      ⟨50, [(2, ⟨3, "x", 90, 0, false, false⟩)], [(2, 7)], 8, 3⟩ := by
  have h := C9_redundant_terminal_noop
    ⟨50, [(2, ⟨3, "x", 90, 0, false, false⟩)], [(2, 7)], 8, 3⟩ 1 (by decide) (by decide)
  exact ⟨h.1, h.2.2⟩

/-! ### Claim C10 -/

/-- Every record of the store has `acknowledged = false`. -/
def store_ack_false (s : Store) : Prop :=
  ∀ id r, store_get s id = some r → r.acknowledged = false

/-- One loop pass never writes `acknowledged := true`. -/
theorem iter_preserves_ack_false (id : Nat) (now : Int) (store : Store)
    (h : store_ack_false store) :
    store_ack_false (reminder_task_iter id now store).store := by
  unfold reminder_task_iter
  cases hg : store_get store id with
  | none => simpa using h
  | some r =>
    simp only
    split_ifs with h1 h2 h3 h4
    · intro j q hq
      rw [store_get_delete] at hq
      split at hq
      · cases hq
      · exact h j q hq
    · exact h
    · exact h
    · intro j q hq
      rw [store_get_update] at hq
      split at hq
      · obtain ⟨r0, hr0, hfr⟩ := Option.map_eq_some'.mp hq
        rw [← hfr]
        exact h j r0 hr0
      · exact h j q hq
    · intro j q hq
      rw [store_get_update] at hq
      split at hq
      · obtain ⟨r0, hr0, hfr⟩ := Option.map_eq_some'.mp hq
        rw [← hfr]
        exact h j r0 hr0
      · exact h j q hq

/-- Startup recovery only registers tasks; it never touches the store. -/
theorem foldl_schedule_store (ids : List Nat) :
    ∀ w : World, (ids.foldl schedule_reminder w).store = w.store := by
  induction ids with
  | nil => intro w; rfl
  | cons i rest ih =>
    intro w
    rw [List.foldl_cons, ih]
    rfl

/-- `on_startup` leaves the store unchanged. -/
theorem on_startup_store (w : World) : (on_startup w).store = w.store :=
  foldl_schedule_store _ w

/-- In every reachable world, no persisted record is acknowledged: `ack` and
`confirm_yes` delete instead of marking, and `confirm_no` — the only
operation writing the field — writes `false`. -/
theorem reach_ack_false (w : World) (hw : Reach w) : store_ack_false w.store := by
  induction hw with
  | init => intro id r h; cases h
  | tick w d _ ih => exact ih
  | create w c t ra _ ih =>
    intro id r h
    have h2 : store_get (add_reminder w.store w.next_id c t ra) id = some r := h
    unfold add_reminder at h2
    simp only [store_get] at h2
    split at h2
    · cases h2
      rfl
    · exact ih id r h2
  | callback w c _ ih =>
    cases c with
    | delCancel => exact ih
    | del i =>
      intro id r h
      have h2 : store_get (store_delete w.store i) id = some r := h
      rw [store_get_delete] at h2
      split at h2
      · cases h2
      · exact ih id r h2
    | ack i =>
      intro id r h
      have h2 : store_get (store_delete w.store i) id = some r := h
      rw [store_get_delete] at h2
      split at h2
      · cases h2
      · exact ih id r h2
    | confirmYes i =>
      intro id r h
      have h2 : store_get (store_delete w.store i) id = some r := h
      rw [store_get_delete] at h2
      split at h2
      · cases h2
      · exact ih id r h2
    | confirmNo i =>
      intro id r h
      have h2 : store_get (store_update w.store i
          (fun q => { q with attempts := 0, awaiting_confirm := false, acknowledged := false,
                             run_at := w.now + REPEAT_INTERVAL_SEC })) id = some r := h
      rw [store_get_update] at h2
      split at h2
      · obtain ⟨r0, hr0, hfr⟩ := Option.map_eq_some'.mp h2
        rw [← hfr]
      · exact ih id r h2
  | taskStep w i _ ih =>
    intro id r h
    unfold world_task_step at h
    cases ht : tasks_lookup w.tasks i with
    | none =>
      simp only [ht] at h
      exact ih id r h
    | some g =>
      simp only [ht] at h
      exact iter_preserves_ack_false i w.now w.store ih id r h
  | restart w _ ih =>
    intro id r h
    rw [on_startup_store] at h
    exact ih id r h

/-- C10: through the program's own operations the persisted `acknowledged`
flag is never true — every record of every reachable world has
`acknowledged = false` — and consequently the wake-time branch of
`reminder_task` that deletes a record because it is acknowledged is
unreachable: a loop pass in a reachable world never removes a record. -/
theorem C10_acknowledged_never_set (w : World) (hw : Reach w) :
    (∀ id r, store_get w.store id = some r → r.acknowledged = false)
    ∧ (∀ id, store_get (world_task_step w id).store id = none →
        store_get w.store id = none) := by
  have hinv := reach_ack_false w hw
  refine ⟨hinv, ?_⟩
  intro id hnone
  cases hg : store_get w.store id with
  | none => rfl
  | some r =>
    exfalso
    unfold world_task_step at hnone
    cases ht : tasks_lookup w.tasks id with
    | none =>
      simp only [ht] at hnone
      rw [hg] at hnone
      cases hnone
    | some g =>
      simp only [ht] at hnone
      have hack := iter_deletes_only_acknowledged id w.now w.store r hg hnone
      rw [hinv id r hg] at hack
      cases hack

/-- C10 witness: a freshly created reminder in a reachable world is
unacknowledged, and a loop pass on it does not delete it. -/
theorem C10_witness :
    (⟨7, "чай", 50, 0, false, false⟩ : Reminder).acknowledged = false
    ∧ store_get (world_task_step (handle_create ⟨0, [], [], 0, 0⟩ 7 "чай" 50) 0).store 0
        ≠ none := by
  have h := C10_acknowledged_never_set (handle_create ⟨0, [], [], 0, 0⟩ 7 "чай" 50)
    (Reach.create ⟨0, [], [], 0, 0⟩ 7 "чай" 50 Reach.init)
  refine ⟨h.1 0 ⟨7, "чай", 50, 0, false, false⟩ (by decide), fun hn => ?_⟩
  have := h.2 0 hn
  revert this
  decide
